import Mathlib

/-!
Verification of `src/value_screener.py`, a value-investing stock screener.

The Python module is embedded shallowly:
* Python floats are modelled by exact reals (`ℝ`) and `math.sqrt` by `Real.sqrt`;
* an optional / possibly-absent float attribute is an `Option ℝ`;
* code that can raise a Python exception returns `Except PyError _`; the only
  exception reachable in this module's own arithmetic is the
  `ValueError: math domain error` that `math.sqrt` raises on a negative argument;
* the external data-fetching collaborators (`get_financial_metrics`,
  `search_line_items`, `get_market_cap` from `src.tools.api`) are modelled as an
  environment of functions from ticker and end date to data.
-/

namespace ValueScreener

/-- A Python exception. `valueError` models `ValueError` (in particular the
`math domain error` raised by `math.sqrt` on a negative argument). -/
inductive PyError where
  | valueError
deriving DecidableEq

/-- Model of CPython's `math.sqrt`: raises `ValueError` on a negative argument,
otherwise the square root (binary floating point abstracted to exact reals). -/
noncomputable def mathSqrt (x : ℝ) : Except PyError ℝ :=
  if x < 0 then .error .valueError else .ok (Real.sqrt x)

/-- The six attributes of a financial-metrics record that `score_stock` reads;
`none` models an absent attribute / a `None` value. -/
structure FinancialMetrics where
  price_to_earnings_ratio : Option ℝ
  price_to_book_ratio : Option ℝ
  debt_to_assets : Option ℝ
  current_ratio : Option ℝ
  revenue_growth : Option ℝ
  earnings_growth : Option ℝ

/-- The three line items requested through `DEFAULT_LINE_ITEMS` and read by
`compute_margin_of_safety`; `none` models an absent attribute. -/
structure LineItem where
  earnings_per_share : Option ℝ
  book_value_per_share : Option ℝ
  outstanding_shares : Option ℝ

/-- The result dict built by `score_stock`. -/
structure ScoreResult where
  ticker : String
  score : ℕ
  margin_of_safety : Option ℝ
  reasons : List String

/-- Embedding of `compute_margin_of_safety` (value_screener.py lines 18-27).
The Python guard `if eps and bvps and shares and market_cap and market_cap > 0`
is true iff every operand is present (not `None`) and nonzero and additionally
`market_cap > 0`; when it fails the function returns `None`. Inside the guard
`math.sqrt(22.5 * eps * bvps)` is taken with no sign check, so a negative
product raises `ValueError` (modelled by the `mathSqrt` error branch). -/
noncomputable def compute_margin_of_safety (line_item : LineItem)
    (market_cap : Option ℝ) : Except PyError (Option ℝ) :=
  match line_item.earnings_per_share, line_item.book_value_per_share,
      line_item.outstanding_shares, market_cap with
  | some eps, some bvps, some shares, some mc =>
    if eps ≠ 0 ∧ bvps ≠ 0 ∧ shares ≠ 0 ∧ mc ≠ 0 ∧ mc > 0 then
      match mathSqrt (22.5 * eps * bvps) with
      | .error e => .error e
      | .ok graham_number =>
        let price := mc / shares
        if price > 0 then .ok (some ((graham_number - price) / price))
        else .ok none
    else .ok none
  | _, _, _, _ => .ok none

/-- Left-pad a digit string with zeros to the given length. -/
def padZeros (n : ℕ) (s : String) : String :=
  String.mk (List.replicate (n - s.length) '0') ++ s

/-- Round half to even, the tie-breaking rule CPython's `format` applies to the
last kept digit, stated on exact reals. -/
noncomputable def pyRoundHalfEven (x : ℝ) : ℤ :=
  if Int.fract x = 1 / 2 then (if 2 ∣ ⌊x⌋ then ⌊x⌋ else ⌊x⌋ + 1) else round x

/-- Model of Python's fixed-point format `f"{x:.ndf}"` on exact reals: the value
scaled by `10 ^ nd` is rounded half-to-even and rendered with `nd` digits after
the decimal point (no point at all when `nd = 0`). CPython formats the binary
double nearest to the value; this model formats the exact value. -/
noncomputable def fmtFixed (nd : ℕ) (x : ℝ) : String :=
  let n : ℤ := pyRoundHalfEven (x * (10 : ℝ) ^ nd)
  let sign := if n < 0 then "-" else ""
  let m : ℕ := n.natAbs
  if nd = 0 then sign ++ toString (m / 10 ^ nd)
  else sign ++ toString (m / 10 ^ nd) ++ "." ++ padZeros nd (toString (m % 10 ^ nd))

/-- Model of Python's percent format `f"{x:.0%}"`: the value times 100, rounded
to a whole number, with a percent sign appended. -/
noncomputable def fmtPercent (x : ℝ) : String :=
  fmtFixed 0 (x * 100) ++ "%"

/-- A scoring rule of the shape `if v and v < t: score += 1; reasons.append(mk v)`:
the pair (points, reason strings) it contributes. Python truthiness makes the
rule contribute nothing when the value is absent or zero. -/
noncomputable def ruleLT (x : Option ℝ) (t : ℝ) (mk : ℝ → String) : ℕ × List String :=
  match x with
  | none => (0, [])
  | some v => if v ≠ 0 ∧ v < t then (1, [mk v]) else (0, [])

/-- A scoring rule of the shape `if v and v > t: score += 1; reasons.append(mk v)`. -/
noncomputable def ruleGT (x : Option ℝ) (t : ℝ) (mk : ℝ → String) : ℕ × List String :=
  match x with
  | none => (0, [])
  | some v => if v ≠ 0 ∧ v > t then (1, [mk v]) else (0, [])

/-- The margin-of-safety rule `if mos is not None and mos > 0.3` (two points).
Its guard is an explicit `None` test, not truthiness. -/
noncomputable def ruleMOS (mos : Option ℝ) : ℕ × List String :=
  match mos with
  | none => (0, [])
  | some m =>
    if m > 0.3 then (2, ["Margin of safety " ++ fmtPercent m]) else (0, [])

/-- The P/E rule of `score_stock`: `fm.price_to_earnings_ratio < 15`, one point. -/
noncomputable def peRule (fm : FinancialMetrics) : ℕ × List String :=
  ruleLT fm.price_to_earnings_ratio 15 (fun v => "P/E " ++ fmtFixed 1 v ++ " < 15")

/-- The P/B rule of `score_stock`: `fm.price_to_book_ratio < 1.5`, one point. -/
noncomputable def pbRule (fm : FinancialMetrics) : ℕ × List String :=
  ruleLT fm.price_to_book_ratio 1.5 (fun v => "P/B " ++ fmtFixed 1 v ++ " < 1.5")

/-- The debt rule of `score_stock`: `fm.debt_to_assets < 0.5`, one point. -/
noncomputable def daRule (fm : FinancialMetrics) : ℕ × List String :=
  ruleLT fm.debt_to_assets 0.5 (fun v => "Debt/Assets " ++ fmtFixed 2 v ++ " < 0.5")

/-- The current-ratio rule of `score_stock`: `fm.current_ratio > 1.5`, one point. -/
noncomputable def crRule (fm : FinancialMetrics) : ℕ × List String :=
  ruleGT fm.current_ratio 1.5 (fun v => "Current ratio " ++ fmtFixed 2 v ++ " > 1.5")

/-- The revenue-growth rule of `score_stock`: `fm.revenue_growth > 0.05`, one point. -/
noncomputable def rgRule (fm : FinancialMetrics) : ℕ × List String :=
  ruleGT fm.revenue_growth 0.05 (fun v => "Revenue growth " ++ fmtPercent v)

/-- The earnings-growth rule of `score_stock`: `fm.earnings_growth > 0.05`, one point. -/
noncomputable def egRule (fm : FinancialMetrics) : ℕ × List String :=
  ruleGT fm.earnings_growth 0.05 (fun v => "Earnings growth " ++ fmtPercent v)

/-- The rule-evaluation block and result dict of `score_stock` (lines 52-85):
score contributions and reasons are accumulated in the source's order
P/E, P/B, Debt/Assets, Current ratio, Margin of safety, Revenue growth,
Earnings growth. -/
noncomputable def mkScoreResult (ticker : String) (fm : FinancialMetrics)
    (mos : Option ℝ) : ScoreResult where
  ticker := ticker
  score := (peRule fm).1 + (pbRule fm).1 + (daRule fm).1 + (crRule fm).1
    + (ruleMOS mos).1 + (rgRule fm).1 + (egRule fm).1
  margin_of_safety := mos
  reasons := (peRule fm).2 ++ (pbRule fm).2 ++ (daRule fm).2 ++ (crRule fm).2
    ++ (ruleMOS mos).2 ++ (rgRule fm).2 ++ (egRule fm).2

/-- Embedding of `score_stock` (lines 30-85), as a function of the fetched data:
`metrics` and `line_items` are the lists the collaborators returned and
`market_cap` their market-cap value. `if not metrics or not line_items or
market_cap is None: return None` is the first match; otherwise `fm = metrics[0]`,
`li = line_items[0]`, the rules are evaluated and the result dict returned. An
exception from `compute_margin_of_safety` propagates. -/
noncomputable def score_stock (ticker : String) (metrics : List FinancialMetrics)
    (line_items : List LineItem) (market_cap : Option ℝ) :
    Except PyError (Option ScoreResult) :=
  match metrics, line_items, market_cap with
  | fm :: _, li :: _, some mc =>
    match compute_margin_of_safety li (some mc) with
    | .error e => .error e
    | .ok mos => .ok (some (mkScoreResult ticker fm mos))
  | _, _, _ => .ok none

/-- The external data-fetching collaborators of `src.tools.api`, as functions of
ticker and end date (period and limit are fixed to `"annual"` and 1 by the
callers, so they are not parameters of the model). -/
structure Env where
  get_financial_metrics : String → String → List FinancialMetrics
  search_line_items : String → String → List LineItem
  get_market_cap : String → String → Option ℝ

/-- `score_stock` together with its fetch step, in an environment. -/
noncomputable def score_stock_fetch (env : Env) (ticker end_date : String) :
    Except PyError (Option ScoreResult) :=
  score_stock ticker (env.get_financial_metrics ticker end_date)
    (env.search_line_items ticker end_date) (env.get_market_cap ticker end_date)

/-- The result-collecting loop of `screen_stocks` (lines 89-93): score each
ticker in input order, keep the non-`None` results, propagate any exception. -/
noncomputable def gather (env : Env) (end_date : String) :
    List String → Except PyError (List ScoreResult)
  | [] => .ok []
  | t :: ts =>
    match score_stock_fetch env t end_date with
    | .error e => .error e
    | .ok r =>
      match gather env end_date ts with
      | .error e => .error e
      | .ok rest =>
        match r with
        | some res => .ok (res :: rest)
        | none => .ok rest

/-- The comparison `results.sort(key=lambda r: r["score"], reverse=True)` sorts
by: `a` may stand before `b` iff `b`'s score is at most `a`'s. -/
def byScoreDesc (a b : ScoreResult) : Bool :=
  decide (b.score ≤ a.score)

/-- Embedding of `screen_stocks` (lines 88-95): gather the results, then sort
them by score descending with a stable sort (CPython's `list.sort` is stable,
and `reverse=True` reverses the comparison, not the output order). -/
noncomputable def screen_stocks (env : Env) (tickers : List String)
    (end_date : String) : Except PyError (List ScoreResult) :=
  match gather env end_date tickers with
  | .error e => .error e
  | .ok results => .ok (results.mergeSort byScoreDesc)

/-- C1: the spec requires the negative-product case `22.5 * eps * bvps < 0` to be
guarded before the square root is taken and to yield `None`; the code takes
`math.sqrt(22.5 * eps * bvps)` unguarded, so on eps = -2, bvps = 20, shares = 100,
market_cap = 1500 (all truthy, market_cap > 0, product -900 < 0) it raises
`ValueError` instead of returning `None`. -/
theorem mos_negative_product_raises :
    compute_margin_of_safety ⟨some (-2), some 20, some 100⟩ (some 1500) =
      .error .valueError := by
  have h : ((-2 : ℝ) ≠ 0 ∧ (20 : ℝ) ≠ 0 ∧ (100 : ℝ) ≠ 0 ∧ (1500 : ℝ) ≠ 0 ∧
      (1500 : ℝ) > 0) := by norm_num
  have hneg : (22.5 : ℝ) * -2 * 20 < 0 := by norm_num
  simp only [compute_margin_of_safety, mathSqrt, if_pos h, if_pos hneg]

/-- C3: the claim says `compute_margin_of_safety` returns `None` whenever the
computed price `market_cap / shares` is not strictly positive; but with
eps = -1, bvps = 1, shares = -1, market_cap = 5 (price = -5 ≤ 0, claim says
`None`) the code reaches `math.sqrt(22.5 * -1 * 1)` before the price test and
raises `ValueError`. -/
theorem mos_nonpositive_price_raises :
    compute_margin_of_safety ⟨some (-1), some 1, some (-1)⟩ (some 5) =
      .error .valueError := by
  have h : ((-1 : ℝ) ≠ 0 ∧ (1 : ℝ) ≠ 0 ∧ (-1 : ℝ) ≠ 0 ∧ (5 : ℝ) ≠ 0 ∧
      (5 : ℝ) > 0) := by norm_num
  have hneg : (22.5 : ℝ) * -1 * 1 < 0 := by norm_num
  simp only [compute_margin_of_safety, mathSqrt, if_pos h, if_pos hneg]

/-- C4: when eps, bvps, shares are present and nonzero, market_cap > 0, the
product 22.5 * eps * bvps is nonnegative and the price market_cap / shares is
positive, `compute_margin_of_safety` returns
(sqrt(22.5 * eps * bvps) - price) / price. -/
theorem mos_formula (eps bvps shares mc : ℝ) (heps : eps ≠ 0) (hbvps : bvps ≠ 0)
    (hshares : shares ≠ 0) (hmc : 0 < mc) (hprod : 0 ≤ 22.5 * eps * bvps)
    (hprice : 0 < mc / shares) :
    compute_margin_of_safety ⟨some eps, some bvps, some shares⟩ (some mc) =
      .ok (some ((Real.sqrt (22.5 * eps * bvps) - mc / shares) / (mc / shares))) := by
  have hguard : eps ≠ 0 ∧ bvps ≠ 0 ∧ shares ≠ 0 ∧ mc ≠ 0 ∧ mc > 0 :=
    ⟨heps, hbvps, hshares, ne_of_gt hmc, hmc⟩
  simp only [compute_margin_of_safety, mathSqrt, if_neg (not_lt.mpr hprod),
    if_pos hprice, if_pos hguard]

/-- Witness for C4 at the spec's example: eps = 2, bvps = 20, shares = 100,
market_cap = 1500 give graham_number = sqrt(900) = 30, price = 15 and a
margin of safety of (30 - 15) / 15 = 1. -/
theorem mos_formula_witness :
    compute_margin_of_safety ⟨some 2, some 20, some 100⟩ (some 1500) =
      .ok (some 1) := by
  have h := mos_formula 2 20 100 1500 (by norm_num) (by norm_num) (by norm_num)
    (by norm_num) (by norm_num) (by norm_num)
  rw [h]
  have hs : Real.sqrt (22.5 * 2 * 20) = 30 := by
    rw [show (22.5 * 2 * 20 : ℝ) = 30 ^ 2 by norm_num]
    exact Real.sqrt_sq (by norm_num)
  rw [hs]
  norm_num

/-- A metrics record with every attribute absent. -/
def fmAbsent : FinancialMetrics := ⟨none, none, none, none, none, none⟩

/-- A line-item record with every attribute absent. -/
def liAbsent : LineItem := ⟨none, none, none⟩

/-- A `ruleLT` rule scores exactly one point per appended reason, and at most one. -/
theorem ruleLT_fst (x : Option ℝ) (t : ℝ) (mk : ℝ → String) :
    (ruleLT x t mk).1 = (ruleLT x t mk).2.length ∧ (ruleLT x t mk).1 ≤ 1 := by
  cases x with
  | none => simp [ruleLT]
  | some v =>
    by_cases h : v ≠ 0 ∧ v < t <;> simp [ruleLT, h]

/-- A `ruleGT` rule scores exactly one point per appended reason, and at most one. -/
theorem ruleGT_fst (x : Option ℝ) (t : ℝ) (mk : ℝ → String) :
    (ruleGT x t mk).1 = (ruleGT x t mk).2.length ∧ (ruleGT x t mk).1 ≤ 1 := by
  cases x with
  | none => simp [ruleGT]
  | some v =>
    by_cases h : v ≠ 0 ∧ v > t <;> simp [ruleGT, h]

/-- The margin-of-safety rule on an absent value contributes nothing. -/
theorem ruleMOS_none : ruleMOS none = (0, []) := rfl

/-- The margin-of-safety rule fires on a value above 0.3: two points, one reason. -/
theorem ruleMOS_pos (m : ℝ) (hm : m > 0.3) :
    ruleMOS (some m) = (2, ["Margin of safety " ++ fmtPercent m]) := by
  simp [ruleMOS, hm]

/-- The margin-of-safety rule on a value at most 0.3 contributes nothing. -/
theorem ruleMOS_nonpos (m : ℝ) (hm : ¬m > 0.3) : ruleMOS (some m) = (0, []) := by
  simp [ruleMOS, hm]

/-- The P/E rule: one point per reason, at most one point. -/
theorem peRule_fst (fm : FinancialMetrics) :
    (peRule fm).1 = (peRule fm).2.length ∧ (peRule fm).1 ≤ 1 :=
  ruleLT_fst fm.price_to_earnings_ratio 15 _

/-- The P/B rule: one point per reason, at most one point. -/
theorem pbRule_fst (fm : FinancialMetrics) :
    (pbRule fm).1 = (pbRule fm).2.length ∧ (pbRule fm).1 ≤ 1 :=
  ruleLT_fst fm.price_to_book_ratio 1.5 _

/-- The debt rule: one point per reason, at most one point. -/
theorem daRule_fst (fm : FinancialMetrics) :
    (daRule fm).1 = (daRule fm).2.length ∧ (daRule fm).1 ≤ 1 :=
  ruleLT_fst fm.debt_to_assets 0.5 _

/-- The current-ratio rule: one point per reason, at most one point. -/
theorem crRule_fst (fm : FinancialMetrics) :
    (crRule fm).1 = (crRule fm).2.length ∧ (crRule fm).1 ≤ 1 :=
  ruleGT_fst fm.current_ratio 1.5 _

/-- The revenue-growth rule: one point per reason, at most one point. -/
theorem rgRule_fst (fm : FinancialMetrics) :
    (rgRule fm).1 = (rgRule fm).2.length ∧ (rgRule fm).1 ≤ 1 :=
  ruleGT_fst fm.revenue_growth 0.05 _

/-- The earnings-growth rule: one point per reason, at most one point. -/
theorem egRule_fst (fm : FinancialMetrics) :
    (egRule fm).1 = (egRule fm).2.length ∧ (egRule fm).1 ≤ 1 :=
  ruleGT_fst fm.earnings_growth 0.05 _

/-- Inversion: a non-`None` `score_stock` result comes from nonempty metrics and
line items and a present market cap, with the result built by `mkScoreResult`
over the margin of safety that `compute_margin_of_safety` returned. -/
theorem score_stock_ok_some (t : String) (ms : List FinancialMetrics)
    (ls : List LineItem) (mc? : Option ℝ) (r : ScoreResult)
    (h : score_stock t ms ls mc? = .ok (some r)) :
    ∃ fm ms' li ls' mc mos, ms = fm :: ms' ∧ ls = li :: ls' ∧ mc? = some mc ∧
      compute_margin_of_safety li (some mc) = .ok mos ∧
      r = mkScoreResult t fm mos := by
  cases ms with
  | nil => simp [score_stock] at h
  | cons fm ms' =>
    cases ls with
    | nil => simp [score_stock] at h
    | cons li ls' =>
      cases mc? with
      | none => simp [score_stock] at h
      | some mc =>
        cases hmos : compute_margin_of_safety li (some mc) with
        | error e => rw [score_stock, hmos] at h; exact absurd h (by simp)
        | ok mos =>
          rw [score_stock, hmos] at h
          refine ⟨fm, ms', li, ls', mc, mos, rfl, rfl, rfl, hmos, ?_⟩
          simpa using h.symm

/-- C2: for every `score_stock` result that is not `None`, the score is a
natural number (hence nonnegative) of at most 8: the six one-point rules and
the two-point margin-of-safety rule sum to at most 8. -/
theorem score_in_range (t : String) (ms : List FinancialMetrics)
    (ls : List LineItem) (mc? : Option ℝ) (r : ScoreResult)
    (h : score_stock t ms ls mc? = .ok (some r)) : r.score ≤ 8 := by
  obtain ⟨fm, ms', li, ls', mc, mos, -, -, -, -, hr⟩ :=
    score_stock_ok_some t ms ls mc? r h
  subst hr
  have h1 := (peRule_fst fm).2
  have h2 := (pbRule_fst fm).2
  have h3 := (daRule_fst fm).2
  have h4 := (crRule_fst fm).2
  have h5 := (rgRule_fst fm).2
  have h6 := (egRule_fst fm).2
  have hm : (ruleMOS mos).1 ≤ 2 := by
    cases mos with
    | none => simp [ruleMOS_none]
    | some m =>
      by_cases hm : m > 0.3
      · simp [ruleMOS_pos m hm]
      · simp [ruleMOS_nonpos m hm]
  simp only [mkScoreResult] at *
  omega

/-- Witness for C2: a ticker with a present market cap and all metric values
absent scores 0, within the range. -/
theorem score_in_range_witness :
    (⟨"AAPL", 0, none, []⟩ : ScoreResult).score ≤ 8 :=
  score_in_range "AAPL" [fmAbsent] [liAbsent] (some 1) ⟨"AAPL", 0, none, []⟩ rfl

/-- C10: for every non-`None` `score_stock` result, the score is the number of
reasons plus one when the margin-of-safety rule fired (its single reason is
worth two points), and exactly the number of reasons otherwise; in particular
the score is always between the number of reasons and that number plus one. -/
theorem score_vs_reasons (t : String) (ms : List FinancialMetrics)
    (ls : List LineItem) (mc? : Option ℝ) (r : ScoreResult)
    (h : score_stock t ms ls mc? = .ok (some r)) :
    ((∃ m, r.margin_of_safety = some m ∧ m > 0.3) →
        r.score = r.reasons.length + 1) ∧
      ((¬∃ m, r.margin_of_safety = some m ∧ m > 0.3) →
        r.score = r.reasons.length) ∧
      r.reasons.length ≤ r.score ∧ r.score ≤ r.reasons.length + 1 := by
  obtain ⟨fm, ms', li, ls', mc, mos, -, -, -, -, hr⟩ :=
    score_stock_ok_some t ms ls mc? r h
  subst hr
  have h1 := (peRule_fst fm).1
  have h2 := (pbRule_fst fm).1
  have h3 := (daRule_fst fm).1
  have h4 := (crRule_fst fm).1
  have h5 := (rgRule_fst fm).1
  have h6 := (egRule_fst fm).1
  simp only [mkScoreResult] at *
  cases mos with
  | none =>
    simp only [ruleMOS_none, List.length_append]
    refine ⟨fun hex => ?_, fun _ => by simp; omega, ?_, ?_⟩
    · obtain ⟨m, hm, -⟩ := hex
      exact absurd hm (by simp)
    · simp; omega
    · simp; omega
  | some m =>
    by_cases hm : m > 0.3
    · simp only [ruleMOS_pos m hm, List.length_append]
      refine ⟨fun _ => by simp; omega, fun hnex => ?_, ?_, ?_⟩
      · exact absurd ⟨m, rfl, hm⟩ hnex
      · simp; omega
      · simp; omega
    · simp only [ruleMOS_nonpos m hm, List.length_append]
      refine ⟨fun hex => ?_, fun _ => by simp; omega, ?_, ?_⟩
      · obtain ⟨m', hm', hgt⟩ := hex
        rw [Option.some.injEq] at hm'
        exact absurd (hm' ▸ hgt) hm
      · simp; omega
      · simp; omega

/-- Witness for C10: the all-absent ticker has no reasons, no fired
margin-of-safety rule, and score 0 = number of reasons. -/
theorem score_vs_reasons_witness :
    (⟨"AAPL", 0, none, []⟩ : ScoreResult).reasons.length ≤
      (⟨"AAPL", 0, none, []⟩ : ScoreResult).score :=
  (score_vs_reasons "AAPL" [fmAbsent] [liAbsent] (some 1)
    ⟨"AAPL", 0, none, []⟩ rfl).2.2.1

/-- Every result `score_stock` returns carries the scored ticker. -/
theorem score_stock_ticker (t : String) (ms : List FinancialMetrics)
    (ls : List LineItem) (mc? : Option ℝ) (r : ScoreResult)
    (h : score_stock t ms ls mc? = .ok (some r)) : r.ticker = t := by
  obtain ⟨fm, ms', li, ls', mc, mos, -, -, -, -, hr⟩ :=
    score_stock_ok_some t ms ls mc? r h
  subst hr
  rfl

/-- `score_stock` returns `None` whenever the metrics list is empty, the
line-item list is empty or the market cap is absent. -/
theorem score_stock_empty (t : String) (ms : List FinancialMetrics)
    (ls : List LineItem) (mc? : Option ℝ)
    (h : ms = [] ∨ ls = [] ∨ mc? = none) :
    score_stock t ms ls mc? = .ok none := by
  rcases h with rfl | rfl | rfl
  · cases ls <;> cases mc? <;> rfl
  · cases ms <;> cases mc? <;> rfl
  · cases ms <;> cases ls <;> rfl

/-- Every result gathered by the screener loop was produced by `score_stock`
on its own ticker. -/
theorem gather_mem (env : Env) (d : String) (ts : List String)
    (l : List ScoreResult) (hg : gather env d ts = .ok l) :
    ∀ r ∈ l, score_stock_fetch env r.ticker d = .ok (some r) := by
  induction ts generalizing l with
  | nil =>
    rw [gather] at hg
    injection hg with hg
    subst hg
    simp
  | cons t ts ih =>
    rw [gather] at hg
    cases hsc : score_stock_fetch env t d with
    | error e => rw [hsc] at hg; exact absurd hg (by simp)
    | ok r0 =>
      rw [hsc] at hg
      cases hrest : gather env d ts with
      | error e => rw [hrest] at hg; exact absurd hg (by simp)
      | ok rest =>
        rw [hrest] at hg
        cases r0 with
        | none =>
          injection hg with hg
          subst hg
          exact ih rest hrest
        | some res =>
          injection hg with hg
          subst hg
          intro r hr
          rcases List.mem_cons.mp hr with rfl | hr
          · have ht : r.ticker = t :=
              score_stock_ticker t _ _ _ r hsc
            rw [score_stock_fetch] at hsc ⊢
            rw [ht]
            exact hsc
          · exact ih rest hrest r hr

/-- C5: a ticker whose fetched metrics list is empty, whose line-item list is
empty or whose market cap is absent gets `None` from `score_stock` (no
exception), and no entry of any screener output carries that ticker. -/
theorem missing_data_skipped (env : Env) (t d : String)
    (h : env.get_financial_metrics t d = [] ∨ env.search_line_items t d = [] ∨
      env.get_market_cap t d = none) :
    score_stock_fetch env t d = .ok none ∧
      ∀ ts out, screen_stocks env ts d = .ok out → ∀ r ∈ out, r.ticker ≠ t := by
  have hnone : score_stock_fetch env t d = .ok none := by
    rw [score_stock_fetch]
    exact score_stock_empty t _ _ _ h
  refine ⟨hnone, fun ts out hout r hr hticker => ?_⟩
  rw [screen_stocks] at hout
  cases hg : gather env d ts with
  | error e => rw [hg] at hout; exact absurd hout (by simp)
  | ok results =>
    rw [hg] at hout
    injection hout with hout
    subst hout
    have hmem : r ∈ results := List.mem_mergeSort.mp hr
    have hres := gather_mem env d ts results hg r hmem
    rw [hticker, hnone] at hres
    exact absurd hres (by simp)

/-- An environment with no data at all. -/
def envEmpty : Env := ⟨fun _ _ => [], fun _ _ => [], fun _ _ => none⟩

/-- Witness for C5: in an environment with no data, scoring a ticker yields
`None` and raises nothing. -/
theorem missing_data_skipped_witness :
    score_stock_fetch envEmpty "AAPL" "2024-01-01" = .ok none :=
  (missing_data_skipped envEmpty "AAPL" "2024-01-01" (Or.inl rfl)).1

/-- C6: the list `screen_stocks` returns is sorted by score descending, and two
results of equal score keep the relative order they had in the gathered list,
which lists results in input-ticker order (stable sort, no secondary key). -/
theorem screen_sorted_stable (env : Env) (ts : List String) (d : String)
    (pre out : List ScoreResult) (hg : gather env d ts = .ok pre)
    (hs : screen_stocks env ts d = .ok out) :
    List.Pairwise (fun a b => b.score ≤ a.score) out ∧
      ∀ a b : ScoreResult, a.score = b.score → [a, b].Sublist pre →
        [a, b].Sublist out := by
  rw [screen_stocks, hg] at hs
  injection hs with hs
  subst hs
  have trans : ∀ a b c : ScoreResult,
      byScoreDesc a b → byScoreDesc b c → byScoreDesc a c := by
    intro a b c hab hbc
    simp only [byScoreDesc, decide_eq_true_eq] at *
    omega
  have total : ∀ a b : ScoreResult, byScoreDesc a b || byScoreDesc b a := by
    intro a b
    simp only [byScoreDesc]
    rcases Nat.le_total b.score a.score with h | h <;> simp [h]
  constructor
  · exact (List.sorted_mergeSort trans total pre).imp
      (fun h => by simpa [byScoreDesc] using h)
  · intro a b hab hsub
    exact List.pair_sublist_mergeSort trans total
      (by simp [byScoreDesc, Nat.le_of_eq hab.symm]) hsub

/-- An environment where every ticker has one metrics record with every value
absent, one line-item record with every value absent, and market cap 1: every
ticker then scores 0, forcing ties. -/
def envFlat : Env := ⟨fun _ _ => [fmAbsent], fun _ _ => [liAbsent], fun _ _ => some 1⟩

/-- Witness for C6: two tickers with equal scores come out sorted and in their
input order. -/
theorem screen_sorted_stable_witness :
    List.Pairwise (fun a b : ScoreResult => b.score ≤ a.score)
        (List.mergeSort [⟨"AAA", 0, none, []⟩, ⟨"BBB", 0, none, []⟩] byScoreDesc) ∧
      List.Sublist [(⟨"AAA", 0, none, []⟩ : ScoreResult), ⟨"BBB", 0, none, []⟩]
        (List.mergeSort [⟨"AAA", 0, none, []⟩, ⟨"BBB", 0, none, []⟩] byScoreDesc) := by
  have h := screen_sorted_stable envFlat ["AAA", "BBB"] "2024-01-01"
    [⟨"AAA", 0, none, []⟩, ⟨"BBB", 0, none, []⟩]
    (List.mergeSort [⟨"AAA", 0, none, []⟩, ⟨"BBB", 0, none, []⟩] byScoreDesc)
    rfl rfl
  exact ⟨h.1, h.2 _ _ rfl (List.Sublist.refl _)⟩

/-- A `ruleLT` rule appends at most the formatted string of its (present) value. -/
theorem ruleLT_snd_sublist (x : Option ℝ) (t : ℝ) (mk : ℝ → String) :
    (ruleLT x t mk).2.Sublist [mk (x.getD 0)] := by
  cases x with
  | none => simp [ruleLT]
  | some v => by_cases h : v ≠ 0 ∧ v < t <;> simp [ruleLT, h]

/-- A `ruleGT` rule appends at most the formatted string of its (present) value. -/
theorem ruleGT_snd_sublist (x : Option ℝ) (t : ℝ) (mk : ℝ → String) :
    (ruleGT x t mk).2.Sublist [mk (x.getD 0)] := by
  cases x with
  | none => simp [ruleGT]
  | some v => by_cases h : v ≠ 0 ∧ v > t <;> simp [ruleGT, h]

/-- The margin-of-safety rule appends at most its formatted percentage string. -/
theorem ruleMOS_snd_sublist (mos : Option ℝ) :
    (ruleMOS mos).2.Sublist ["Margin of safety " ++ fmtPercent (mos.getD 0)] := by
  cases mos with
  | none => simp [ruleMOS]
  | some m => by_cases h : m > 0.3 <;> simp [ruleMOS, h]

/-- C7: for every non-`None` result of `score_stock`, the reasons list is a
sublist of the seven formatted rule strings in the fixed order P/E, P/B,
Debt/Assets, Current ratio, Margin of safety, Revenue growth, Earnings growth
(whatever subset of rules fired); so each entry is one of these strings, with
P/E and P/B rendered to one decimal (`fmtFixed 1`), Debt/Assets and Current
ratio to two decimals (`fmtFixed 2`), and margin-of-safety and growth reasons
as whole-number percentages (`fmtPercent`). -/
theorem reasons_order_format (t : String) (ms : List FinancialMetrics)
    (ls : List LineItem) (mc? : Option ℝ) (r : ScoreResult)
    (h : score_stock t ms ls mc? = .ok (some r)) :
    ∃ fm ms', ms = fm :: ms' ∧
      r.reasons.Sublist
        ["P/E " ++ fmtFixed 1 (fm.price_to_earnings_ratio.getD 0) ++ " < 15",
         "P/B " ++ fmtFixed 1 (fm.price_to_book_ratio.getD 0) ++ " < 1.5",
         "Debt/Assets " ++ fmtFixed 2 (fm.debt_to_assets.getD 0) ++ " < 0.5",
         "Current ratio " ++ fmtFixed 2 (fm.current_ratio.getD 0) ++ " > 1.5",
         "Margin of safety " ++ fmtPercent (r.margin_of_safety.getD 0),
         "Revenue growth " ++ fmtPercent (fm.revenue_growth.getD 0),
         "Earnings growth " ++ fmtPercent (fm.earnings_growth.getD 0)] := by
  obtain ⟨fm, ms', li, ls', mc, mos, hms, hls, hmc, hcm, hr⟩ :=
    score_stock_ok_some t ms ls mc? r h
  refine ⟨fm, ms', hms, ?_⟩
  subst hr
  simp only [mkScoreResult]
  have hsub :=
    ((((((ruleLT_snd_sublist fm.price_to_earnings_ratio 15
        (fun v => "P/E " ++ fmtFixed 1 v ++ " < 15")).append
      (ruleLT_snd_sublist fm.price_to_book_ratio 1.5
        (fun v => "P/B " ++ fmtFixed 1 v ++ " < 1.5"))).append
      (ruleLT_snd_sublist fm.debt_to_assets 0.5
        (fun v => "Debt/Assets " ++ fmtFixed 2 v ++ " < 0.5"))).append
      (ruleGT_snd_sublist fm.current_ratio 1.5
        (fun v => "Current ratio " ++ fmtFixed 2 v ++ " > 1.5"))).append
      (ruleMOS_snd_sublist mos)).append
      (ruleGT_snd_sublist fm.revenue_growth 0.05
        (fun v => "Revenue growth " ++ fmtPercent v))).append
      (ruleGT_snd_sublist fm.earnings_growth 0.05
        (fun v => "Earnings growth " ++ fmtPercent v))
  simpa [peRule, pbRule, daRule, crRule, rgRule, egRule] using hsub

/-- Witness for C7: the all-absent ticker's empty reasons list is a sublist of
the seven formatted strings. -/
theorem reasons_order_format_witness :
    ∃ fm ms', [fmAbsent] = fm :: ms' ∧
      (⟨"AAPL", 0, none, []⟩ : ScoreResult).reasons.Sublist
        ["P/E " ++ fmtFixed 1 (fm.price_to_earnings_ratio.getD 0) ++ " < 15",
         "P/B " ++ fmtFixed 1 (fm.price_to_book_ratio.getD 0) ++ " < 1.5",
         "Debt/Assets " ++ fmtFixed 2 (fm.debt_to_assets.getD 0) ++ " < 0.5",
         "Current ratio " ++ fmtFixed 2 (fm.current_ratio.getD 0) ++ " > 1.5",
         "Margin of safety " ++
           fmtPercent ((⟨"AAPL", 0, none, []⟩ : ScoreResult).margin_of_safety.getD 0),
         "Revenue growth " ++ fmtPercent (fm.revenue_growth.getD 0),
         "Earnings growth " ++ fmtPercent (fm.earnings_growth.getD 0)] :=
  reasons_order_format "AAPL" [fmAbsent] [liAbsent] (some 1)
    ⟨"AAPL", 0, none, []⟩ rfl

/-- C8: every scoring rule whose required input is absent or exactly zero
contributes no points and appends no reason, whatever the rule's threshold (so
a zero value that would numerically pass, such as debt_to_assets = 0 < 0.5,
still adds nothing), and a zero or absent eps, bvps or shares likewise makes
the margin-of-safety calculation return `None`. -/
theorem rule_skips_zero_or_absent (fm : FinancialMetrics) (li : LineItem)
    (mc : ℝ) (v : Option ℝ) (hv : v = none ∨ v = some 0) :
    peRule { fm with price_to_earnings_ratio := v } = (0, []) ∧
      pbRule { fm with price_to_book_ratio := v } = (0, []) ∧
      daRule { fm with debt_to_assets := v } = (0, []) ∧
      crRule { fm with current_ratio := v } = (0, []) ∧
      rgRule { fm with revenue_growth := v } = (0, []) ∧
      egRule { fm with earnings_growth := v } = (0, []) ∧
      ruleMOS none = (0, []) ∧
      compute_margin_of_safety { li with earnings_per_share := v } (some mc) =
        .ok none ∧
      compute_margin_of_safety { li with book_value_per_share := v } (some mc) =
        .ok none ∧
      compute_margin_of_safety { li with outstanding_shares := v } (some mc) =
        .ok none := by
  obtain ⟨eps, bvps, shares⟩ := li
  have h7 : compute_margin_of_safety ⟨v, bvps, shares⟩ (some mc) = .ok none := by
    rcases hv with rfl | rfl <;> cases bvps <;> cases shares <;>
      simp [compute_margin_of_safety]
  have h8 : compute_margin_of_safety ⟨eps, v, shares⟩ (some mc) = .ok none := by
    rcases hv with rfl | rfl <;> cases eps <;> cases shares <;>
      simp [compute_margin_of_safety]
  have h9 : compute_margin_of_safety ⟨eps, bvps, v⟩ (some mc) = .ok none := by
    rcases hv with rfl | rfl <;> cases eps <;> cases bvps <;>
      simp [compute_margin_of_safety]
  rcases hv with rfl | rfl <;>
    exact ⟨by simp [peRule, ruleLT], by simp [pbRule, ruleLT],
      by simp [daRule, ruleLT], by simp [crRule, ruleGT],
      by simp [rgRule, ruleGT], by simp [egRule, ruleGT], rfl, h7, h8, h9⟩

/-- Witness for C8: debt_to_assets = 0 numerically satisfies 0 < 0.5, yet the
debt rule contributes no point and no reason. -/
theorem rule_skips_zero_or_absent_witness :
    (0 : ℝ) < 0.5 ∧ daRule { fmAbsent with debt_to_assets := some 0 } = (0, []) :=
  ⟨by norm_num,
    (rule_skips_zero_or_absent fmAbsent liAbsent 1 (some 0) (Or.inr rfl)).2.2.1⟩

/-- The margin-of-safety calculation yields `None` (without an exception) when
the market cap is not strictly positive: the truthiness guard fails before the
square root is reached. -/
theorem mos_none_of_mc_nonpos (li : LineItem) (mc : ℝ) (h : mc ≤ 0) :
    compute_margin_of_safety li (some mc) = .ok none := by
  obtain ⟨eps, bvps, shares⟩ := li
  have hmc : ¬mc > 0 := not_lt.mpr h
  cases eps <;> cases bvps <;> cases shares <;>
    simp [compute_margin_of_safety, hmc]

/-- C9: a ticker whose market cap is present but zero or negative is NOT
skipped: `score_stock` returns a result whose margin of safety is `None`, and
only the six one-point metric rules can contribute, so its score is at most 6. -/
theorem mc_nonpositive_scored (t : String) (fm : FinancialMetrics)
    (ms : List FinancialMetrics) (li : LineItem) (ls : List LineItem) (mc : ℝ)
    (h : mc ≤ 0) :
    ∃ r, score_stock t (fm :: ms) (li :: ls) (some mc) = .ok (some r) ∧
      r.margin_of_safety = none ∧ r.score ≤ 6 := by
  refine ⟨mkScoreResult t fm none, ?_, rfl, ?_⟩
  · rw [score_stock, mos_none_of_mc_nonpos li mc h]
  · have h1 := (peRule_fst fm).2
    have h2 := (pbRule_fst fm).2
    have h3 := (daRule_fst fm).2
    have h4 := (crRule_fst fm).2
    have h5 := (rgRule_fst fm).2
    have h6 := (egRule_fst fm).2
    simp only [mkScoreResult, ruleMOS_none]
    omega

/-- A metrics record that fires all six one-point rules. -/
noncomputable def fmStrong : FinancialMetrics :=
  ⟨some 10, some 1, some (1 / 4), some 2, some (1 / 10), some (1 / 10)⟩

/-- Witness for C9: market cap 0 still yields a scored result with `None`
margin of safety, and with all six one-point rules firing the score reaches 6. -/
theorem mc_nonpositive_scored_witness :
    (∃ r, score_stock "AAPL" [fmStrong] [liAbsent] (some 0) = .ok (some r) ∧
        r.margin_of_safety = none ∧ r.score ≤ 6) ∧
      (mkScoreResult "AAPL" fmStrong none).score = 6 :=
  ⟨mc_nonpositive_scored "AAPL" fmStrong [] liAbsent [] 0 le_rfl,
    by norm_num [mkScoreResult, peRule, pbRule, daRule, crRule, rgRule, egRule,
      ruleLT, ruleGT, ruleMOS, fmStrong]⟩

end ValueScreener
